import Mathlib

/-!
Verification development for the statblock layout-evaluation and
column-balancing engine of the fantasy-statblocks repository.

The definitions below are a shallow embedding of the engine in
`src/view/ui/ColumnContainer.svelte`:

* `checkConditioned` — the visibility predicate (source lines 48-82);
* `ensureColon`, `isSpellHeader`, `spellStep`, `groupSpells` — the spell
  grouping fold (source lines 41-44 and 304-357);
* `runConditionsAux` / `runConditions` — the `ifelse` condition loop,
  including the per-evaluation sandbox iframe lifecycle (source lines
  187-216); the user-script evaluator (the iframe's `Function`
  constructor, an external JS engine) is an abstract parameter
  `Option String → Except Unit Bool`, `Except.error` modelling a script
  that throws;
* `itemCase` / `finishItem` / `expandStep` / `expandItem` — the recursive
  block expansion `getElementForStatblockItem` (source lines 103-535);
  external Svelte components (Heading, Traits, SpellItem, ...) are
  abstract producers collected in `Renderers`, and DOM elements are
  modelled by the tree `Elem`, `Elem.hasChildNodes` matching the DOM
  predicate used by the final filter (source line 534).  Recursion depth
  is bounded by an explicit fuel argument (the source recurses
  unboundedly; a cyclic named-layout reference would not terminate there,
  and every claim below holds for every fuel);
* `maxHeight`, `computeSplit` — the split-height policy of
  `buildStatblock` (source lines 536-539 and 589-601), with JS numbers
  modelled as rationals and `Infinity` as `Option.none`.

CSS class bookkeeping (`cls`, `classes`, `slugify`) only affects class
name strings on the created elements and is omitted from the element
model.  `stringify` lives in `src/util/util`, which is not part of the
sources; the one place its behaviour matters (a map-shaped spell entry
with no key/value) is modelled from the spec (GroupingError: the entry
is dropped).
-/

/-- The `type` discriminator of a `StatblockItem` (the tagged union in
`src/layouts/layout.types`). -/
inductive ItemType where
  | group | inline | collapse | heading | subheading | property | saves
  | table | text | image | action | javascript | traits | spells
  | layout | ifelse
deriving DecidableEq

/-- A data-record field value: JS strings, numbers, booleans, arrays and
objects, as far as the engine inspects them. -/
inductive Value where
  | str (s : String)
  | num (q : ℚ)
  | boolV (b : Bool)
  | vlist (l : List Value)
  | obj (fields : List (String × Value))

/-- The data record ("monster"): a mapping from field name to value. -/
def Monster := List (String × Value)

/-- `monster[prop]`, `none` when the field is absent. -/
def lookupField (m : Monster) (p : String) : Option Value :=
  List.lookup p m

/-- `monster.name` (the source always reads it as a string). -/
def monsterName (m : Monster) : String :=
  match lookupField m "name" with
  | some (.str s) => s
  | _ => ""

/-- One branch qualifies for visibility: the property is present in the
record and holds a non-empty array, a non-empty string, or a number
(source lines 62-81). -/
def propQualifies (m : Monster) (prop : String) : Bool :=
  match lookupField m prop with
  | some (.vlist l) => !l.isEmpty
  | some (.str s) => !s.isEmpty
  | some (.num _) => true
  | _ => false

/-- A layout-tree item.  Fields follow the source's `StatblockItem`:
`conditioned`, `properties` and `nested` are `Option`s because the source
tests their presence (`"nested" in item`, `"properties" in item`);
`conditions` is the `ifelse` branch list, each branch a pair
`(condition script, nested children)` with an absent condition modelled
as `none`; `hasRule` is absent-as-false.  CSS fields are omitted. -/
inductive Item where
  | mk (ty : ItemType) (conditioned : Option Bool)
       (properties : Option (List String)) (nested : Option (List Item))
       (conditions : List (Option String × List Item))
       (heading : Option String) (subheadingText : Option String)
       (hasRule : Bool) (layoutName : Option String)

def Item.ty : Item → ItemType
  | .mk t _ _ _ _ _ _ _ _ => t

def Item.conditioned : Item → Option Bool
  | .mk _ c _ _ _ _ _ _ _ => c

def Item.properties : Item → Option (List String)
  | .mk _ _ p _ _ _ _ _ _ => p

def Item.nested : Item → Option (List Item)
  | .mk _ _ _ n _ _ _ _ _ => n

def Item.conditions : Item → List (Option String × List Item)
  | .mk _ _ _ _ c _ _ _ _ => c

def Item.heading : Item → Option String
  | .mk _ _ _ _ _ h _ _ _ => h

def Item.subheadingText : Item → Option String
  | .mk _ _ _ _ _ _ s _ _ => s

def Item.hasRule : Item → Bool
  | .mk _ _ _ _ _ _ _ r _ => r

def Item.layoutName : Item → Option String
  | .mk _ _ _ _ _ _ _ _ l => l

/-- A named layout, as returned by the external `getLayout` lookup. -/
structure Layout where
  name : String
  blocks : List Item

/-- JS truthiness of an optional string (`undefined` and `""` falsy). -/
def truthyStr : Option String → Bool
  | some s => !s.isEmpty
  | none => false

/-- `isVisible` (`checkConditioned`, source lines 48-82): an item whose
`conditioned` flag is unset or false is visible; an item with nested
children is visible iff some child is; `ifelse`/`javascript`/`layout`
items are visible; otherwise visibility needs no declared properties or
a qualifying one.  The fuel bounds recursion depth into nested children
(the source recurses unboundedly on the acyclic item tree); at fuel `0`
the model answers `false`. -/
def checkConditioned (m : Monster) : Nat → Item → Bool
  | 0, _ => false
  | fuel + 1, item =>
    if item.conditioned = none ∨ item.conditioned = some false then true
    else
      match item.nested with
      | some l => l.any (checkConditioned m fuel)
      | none =>
        if item.ty = .ifelse ∨ item.ty = .javascript ∨ item.ty = .layout then true
        else
          match item.properties with
          | none => true
          | some props =>
            if props.isEmpty then true
            else props.any (propQualifies m)

/-- A single spell line: optional level label plus linkified text
(source line 45). -/
structure Spell where
  level : Option String
  spells : String
deriving DecidableEq

/-- A spell group: a header and its spell lines (source line 46). -/
structure SpellBlock where
  header : String
  spells : List Spell
deriving DecidableEq

/-- The `/[^a-zA-Z0-9]$/` character class of `ensureColon`. -/
def isAlnumChar (c : Char) : Bool :=
  ('a' ≤ c && c ≤ 'z') || ('A' ≤ c && c ≤ 'Z') || ('0' ≤ c && c ≤ '9')

/-- `ensureColon` (source lines 41-44): return the header unchanged when
its final character is non-alphanumeric, else append `":"` (an empty
header never matches the regex, so it gets the colon). -/
def ensureColon (header : String) : String :=
  match header.data.getLast? with
  | some c => if !isAlnumChar c then header else header ++ ":"
  | none => header ++ ":"

/-- The header test of the spell fold (source lines 313-317): a string
is a header when its last character is `':'` (`charAt(length-1)`) or it
contains no `':'` at all. -/
def isSpellHeader (s : String) : Bool :=
  (s.data.getLast? == some ':') || !(s.data.contains ':')

/-- The key/value pairs the source reads off a map-shaped entry via
`Object.keys` / `Object.values`; non-objects expose none. -/
def objFields : Value → List (String × Value)
  | .obj fields => fields
  | _ => []

/-- Modelled from the spec: `stringify` from `src/util/util` (not among
the sources) renders a field value as display text for linkification. -/
def stringify : Value → String
  | .str s => s
  | .num q => toString q
  | _ => ""

/-- Appending a spell entry to the accumulator (source lines 325,
347-356): push onto the last group, or synthesize the
`"<name> knows the following spells:"` group when none is open yet. -/
def addSpell (monsterNm : String) (acc : List SpellBlock) (sp : Spell) :
    List SpellBlock :=
  match acc.getLast? with
  | none => [⟨monsterNm ++ " knows the following spells:", [sp]⟩]
  | some lastB => acc.dropLast ++ [⟨lastB.header, lastB.spells ++ [sp]⟩]

/-- One step of the spell-grouping reduce (source lines 310-357).
A header-shaped string opens a new group; a string entry becomes a
level-less spell; a map-shaped entry yields `{level := first key,
spells := linkified stringified first value}`; a map with no key/value
is dropped (GroupingError, modelled from the spec since `stringify` is
external to the sources). -/
def spellStep (linkify : String → String) (monsterNm : String)
    (acc : List SpellBlock) (current : Value) : List SpellBlock :=
  match current with
  | .str s =>
    if isSpellHeader s then
      acc ++ [⟨ensureColon s, []⟩]
    else
      addSpell monsterNm acc ⟨none, linkify s⟩
  | v =>
    match objFields v with
    | [] => acc
    | (k, val) :: _ => addSpell monsterNm acc ⟨some k, linkify (stringify val)⟩

/-- `SpellGrouper.group`: the left fold of `spellStep` over the raw list
(source lines 310-357). -/
def groupSpells (linkify : String → String) (monsterNm : String)
    (raw : List Value) : List SpellBlock :=
  raw.foldl (spellStep linkify monsterNm) []

/-- `condition?.length` with `undefined → 0` (source line 203). -/
def condLen : Option String → Nat
  | none => 0
  | some s => s.length

/-- The `ifelse` condition loop (source lines 188-213), generic in the
branch payload `α` (the branch's nested children).  `eval` is the
sandboxed script evaluator; `Except.error` models a script that throws.
Returns the selected payload (if any) and the number of sandbox iframes
left attached to `document.body`: each iteration creates an iframe, and
`removeChild` runs only when evaluation does not throw — the `continue`
in the catch block skips it (source lines 190-200). -/
def runConditionsAux {α : Type} (eval : Option String → Except Unit Bool)
    (total : Nat) : List (Option String × α) → Nat → Option α × Nat
  | [], _ => (none, 0)
  | (condition, nested) :: rest, i =>
    match eval condition with
    | .error _ =>
      let r := runConditionsAux eval total rest (i + 1)
      (r.1, r.2 + 1)
    | .ok parsed =>
      if parsed = true ∨ (i = total - 1 ∧ condLen condition = 0) then
        (some nested, 0)
      else
        runConditionsAux eval total rest (i + 1)

/-- Entry point of the condition loop: indices start at `0` and the
last-branch test compares against `conditions.length - 1`. -/
def runConditions {α : Type} (eval : Option String → Except Unit Bool)
    (conds : List (Option String × α)) : Option α × Nat :=
  runConditionsAux eval conds.length conds 0

/-- `maxHeight` (source lines 536-539): the configured `columnHeight`
when it is a number greater than zero, else `Infinity` (`none`). -/
def maxHeight (columnHeight : Option ℚ) : Option ℚ :=
  match columnHeight with
  | some h => if 0 < h then some h else none
  | none => none

/-- `Math.min` against a possibly-infinite bound. -/
def minOpt (x : ℚ) : Option ℚ → ℚ
  | some m => min x m
  | none => x

/-- The split-height policy of `buildStatblock` (source lines 589-601):
`forceColumns` packs into `maxColumns`; an explicit positive record
column count `k` gives `max(h/k, h/columns)`; otherwise
`max(600, min(h/columns, maxHeight))`. -/
def computeSplit (forceColumns : Bool) (monsterColumns : Option ℚ)
    (maxColumns columns scrollHeight : ℚ) (mh : Option ℚ) : ℚ :=
  if forceColumns then scrollHeight / maxColumns
  else
    match monsterColumns with
    | some k =>
      if 0 < k then max (scrollHeight / k) (scrollHeight / columns)
      else max 600 (minOpt (scrollHeight / columns) mh)
    | none => max 600 (minOpt (scrollHeight / columns) mh)

/-- A DOM element, reduced to its child list: `hasChildNodes` is the
only element property the engine's filter inspects. -/
inductive Elem where
  | mk (children : List Elem)

def Elem.children : Elem → List Elem
  | .mk cs => cs

/-- `el.hasChildNodes()` (source line 534). -/
def Elem.hasChildNodes (e : Elem) : Bool :=
  !e.children.isEmpty

/-- The external Svelte block producers (§6 of the spec): for each leaf
component, the child nodes it mounts into its target.  `collapseC` is a
function of the pre-expanded inner elements; `traitEntry` covers both
the `name`/`desc` destructuring of one trait entry and the `Traits`
mount, and may throw (`Except.error`) — the source wraps exactly that
loop in `try`/`catch` (source lines 476-517). -/
structure Renderers where
  sectionHeading : Item → List Elem
  headingC : Item → List Elem
  actionC : Item → List Elem
  javascriptC : Item → List Elem
  collapseC : List Elem → List Elem
  imageC : Item → List Elem
  propertyLine : Item → List Elem
  savesC : Item → List Elem
  subheadingC : Item → List Elem
  tableC : Item → List Elem
  textC : Item → List Elem
  ruleC : List Elem
  traitsHeader : String → String → List Elem
  spellItemC : Spell → Bool → Bool → List Elem
  traitsSub : String → List Elem
  traitEntry : Value → Except Unit (List Elem)

/-- The ambient context of one render pass: the data record, the
sandboxed script evaluator, the external layout lookup, the linkifier
and the component renderers. -/
structure Ctx where
  monster : Monster
  evalCondition : Option String → Except Unit Bool
  getLayout : String → Option Layout
  linkify : String → String
  R : Renderers

/-- The outcome of one `getElementForStatblockItem` call:
`created` — the elements the call attached to the caller-supplied
container (empty when no container was passed); `ret` — the returned
target list (source line 534 or an early `return []`); `frames` — the
sandbox iframes the call left attached to `document.body`. -/
structure ExpandResult where
  created : List Elem
  ret : List Elem
  frames : Nat

/-- The result of the per-type `switch`: either the normal fall-through
(target children, extra container elements, extra pushed targets, leaked
frames — then the `hasRule` separator and the `hasChildNodes` filter
run), or an early `return []` (traits and spells guards and the traits
catch, source lines 309, 437, 516), which bypasses both but leaves the
listed elements in the container. -/
inductive CaseOut where
  | normal (targetChildren extraCreated pushed : List Elem) (frames : Nat)
  | early (created : List Elem)

/-- `monster[item.properties[0]]` (source lines 305, 436).  An item with
no declared `properties` would make the source throw on
`item.properties[0]`; the model answers `none` (the claims only concern
items that declare a property). -/
def firstPropValue (m : Monster) (properties : Option (List String)) :
    Option Value :=
  match properties with
  | some (p :: _) => lookupField m p
  | _ => none

/-- The trait-entry loop for entries `1..` (source lines 492-512): each
iteration creates a `prop` div (in the caller's container when present)
and mounts a `Traits` component into it; a throw stops the loop with
the already-created divs still in place (the div of the failing entry
stays empty).  Returns the created divs and whether the loop finished
without throwing. -/
def traitPropsLoop (render : Value → Except Unit (List Elem)) :
    List Value → List Elem × Bool
  | [] => ([], true)
  | v :: rest =>
    match render v with
    | .error _ => ([Elem.mk []], false)
    | .ok children =>
      let r := traitPropsLoop render rest
      (Elem.mk children :: r.1, r.2)

/-- The per-type `switch` of `getElementForStatblockItem` (source lines
115-521).  `rec` is the recursive call, its `Bool` argument telling
whether a container is passed (`true`: the nested call's created
elements land inside this item's target). -/
def itemCase (ctx : Ctx) (rec : Bool → Item → ExpandResult) (item : Item) :
    CaseOut :=
  match item.ty with
  | .group =>
    let headingChildren :=
      if truthyStr item.heading then ctx.R.sectionHeading item else []
    let results := (item.nested.getD []).map (rec true)
    .normal (headingChildren ++ (results.map ExpandResult.created).flatten) []
      ((results.map ExpandResult.ret).flatten)
      ((results.map ExpandResult.frames).sum)
  | .action => .normal (ctx.R.actionC item) [] [] 0
  | .javascript => .normal (ctx.R.javascriptC item) [] [] 0
  | .collapse =>
    let results := (item.nested.getD []).map (rec false)
    .normal (ctx.R.collapseC ((results.map ExpandResult.ret).flatten)) [] []
      ((results.map ExpandResult.frames).sum)
  | .heading => .normal (ctx.R.headingC item) [] [] 0
  | .ifelse =>
    let sel := runConditions ctx.evalCondition item.conditions
    match sel.1 with
    | none => .normal [] [] [] sel.2
    | some blocks =>
      let results := blocks.map (rec true)
      .normal ((results.map ExpandResult.created).flatten) []
        ((results.map ExpandResult.ret).flatten)
        (sel.2 + (results.map ExpandResult.frames).sum)
  | .inline =>
    let headingChildren :=
      if truthyStr item.heading then ctx.R.sectionHeading item else []
    let results := (item.nested.getD []).map (rec true)
    let inlineDiv := Elem.mk (results.map (fun r => Elem.mk r.created))
    .normal (headingChildren ++ [inlineDiv]) [] [inlineDiv]
      ((results.map ExpandResult.frames).sum)
  | .image => .normal (ctx.R.imageC item) [] [] 0
  | .layout =>
    match item.layoutName.bind ctx.getLayout with
    | some l =>
      if !l.blocks.isEmpty then
        let r := rec false
          (Item.mk .group none (some []) (some l.blocks) [] none none false none)
        .normal [] [] r.ret r.frames
      else .normal [] [] [] 0
    | none => .normal [] [] [] 0
  | .property => .normal (ctx.R.propertyLine item) [] [] 0
  | .saves => .normal (ctx.R.savesC item) [] [] 0
  | .spells =>
    match firstPropValue ctx.monster item.properties with
    | some (.vlist blocks) =>
      if blocks.isEmpty then .early [Elem.mk []]
      else
        let spellBlocks := groupSpells ctx.linkify (monsterName ctx.monster) blocks
        let pushed := spellBlocks.enum.map (fun bb =>
          (if 0 < bb.2.header.length then
            (ctx.R.traitsHeader
              (if bb.1 = 0 then item.heading.getD "Spellcasting" else "")
              bb.2.header).head?.toList
           else []) ++
          ((bb.2.spells.enum.map (fun isp =>
            (ctx.R.spellItemC isp.2 (isp.1 == 0)
              (isp.1 == bb.2.spells.length - 1)).head?.toList)).flatten))
        .normal [] [] pushed.flatten 0
    | _ => .early [Elem.mk []]
  | .subheading => .normal (ctx.R.subheadingC item) [] [] 0
  | .table => .normal (ctx.R.tableC item) [] [] 0
  | .text => .normal (ctx.R.textC item) [] [] 0
  | .traits =>
    match firstPropValue ctx.monster item.properties with
    | some (.vlist (b0 :: brest)) =>
      let headChildren :=
        if truthyStr item.heading then [Elem.mk (ctx.R.sectionHeading item)]
        else []
      let subProp : List Elem :=
        if truthyStr item.subheadingText then
          [Elem.mk (ctx.R.traitsSub
            ((item.subheadingText.getD "").replace "{{monster}}"
              (monsterName ctx.monster)))]
        else []
      match ctx.R.traitEntry b0 with
      | .error _ =>
        .early [Elem.mk [Elem.mk (headChildren ++ subProp ++ [Elem.mk []])]]
      | .ok entry0 =>
        let firstElement :=
          Elem.mk (headChildren ++ subProp ++ [Elem.mk entry0])
        let loop := traitPropsLoop ctx.R.traitEntry brest
        if loop.2 then
          .normal [firstElement] loop.1 (firstElement :: subProp ++ loop.1) 0
        else
          .early (Elem.mk [firstElement] :: loop.1)
    | _ => .early [Elem.mk []]

/-- Finishing one call: the normal fall-through appends the `hasRule`
separator div (detached, holding the `Rule` render) and filters the
target list by `hasChildNodes` (source lines 522-534); an early return
yields `[]` directly.  `created` is reported only when the caller passed
a container. -/
def finishItem (ctx : Ctx) (hasContainer hasRule : Bool) :
    CaseOut → ExpandResult
  | .early created => ⟨if hasContainer then created else [], [], 0⟩
  | .normal targetChildren extraCreated pushed frames =>
    let targets := Elem.mk targetChildren :: pushed
    let targets2 :=
      if hasRule then targets ++ [Elem.mk ctx.R.ruleC] else targets
    ⟨if hasContainer then Elem.mk targetChildren :: extraCreated else [],
     targets2.filter Elem.hasChildNodes, frames⟩

/-- One unfolding of `getElementForStatblockItem`: the visibility guard
(source lines 107-109) returns `[]` before any element is created;
otherwise the target div is created, the switch runs, and the call is
finished. -/
def expandStep (ctx : Ctx) (check : Item → Bool)
    (rec : Bool → Item → ExpandResult) (hasContainer : Bool) (item : Item) :
    ExpandResult :=
  if check item then
    finishItem ctx hasContainer item.hasRule (itemCase ctx rec item)
  else ⟨[], [], 0⟩

/-- `getElementForStatblockItem` with fuel-bounded recursion depth. -/
def expandItem (ctx : Ctx) : Nat → Bool → Item → ExpandResult
  | 0, _, _ => ⟨[], [], 0⟩
  | fuel + 1, hasContainer, item =>
    expandStep ctx (checkConditioned ctx.monster (fuel + 1))
      (expandItem ctx fuel) hasContainer item

/-- The top-level loop over the layout tree (source lines 541-546):
expand each item without a container and push its non-empty result. -/
def expandStatblock (ctx : Ctx) (fuel : Nat) : List Item → List Elem
  | [] => []
  | item :: rest =>
    let elements := (expandItem ctx fuel false item).ret
    (if elements.isEmpty then [] else elements) ++
      expandStatblock ctx fuel rest

/-- A trivial instantiation of the external component producers: every
component mounts a single childless node, collapse embeds its elements,
trait entries render successfully. -/
def R0 : Renderers where
  sectionHeading := fun _ => [Elem.mk []]
  headingC := fun _ => [Elem.mk []]
  actionC := fun _ => [Elem.mk []]
  javascriptC := fun _ => [Elem.mk []]
  collapseC := fun es => es
  imageC := fun _ => [Elem.mk []]
  propertyLine := fun _ => [Elem.mk []]
  savesC := fun _ => [Elem.mk []]
  subheadingC := fun _ => [Elem.mk []]
  tableC := fun _ => [Elem.mk []]
  textC := fun _ => [Elem.mk []]
  ruleC := [Elem.mk []]
  traitsHeader := fun _ _ => [Elem.mk []]
  spellItemC := fun _ _ _ => [Elem.mk []]
  traitsSub := fun _ => [Elem.mk []]
  traitEntry := fun _ => .ok [Elem.mk []]

/-- A concrete script evaluator under which the script `"boom"` throws
and every other script evaluates to false. -/
def evalBoom : Option String → Except Unit Bool
  | some "boom" => .error ()
  | _ => .ok false

/-- A concrete script evaluator mapping `"true"` to `true` and every
other script to `false`; used as an arbitrary evaluator instantiation
in witnesses (the source's glue does not realize it for bare
expression scripts, see `evalBareExpr`). -/
def evalLit : Option String → Except Unit Bool
  | some "true" => .ok true
  | _ => .ok false

/-- The evaluation the source's glue realizes for a bare expression
condition script: the condition text becomes the function BODY of
`new funct("monster", "plugin", condition)` (source line 194), so a
body that is a bare expression statement — `"true"`, `"false"` or the
empty string — contains no `return`, the call returns `undefined`, and
`?? false` (source line 195) coerces every such evaluation to `false`;
none of these bodies can throw.  This evaluator records that (it is
only ever applied to those scripts). -/
def evalBareExpr : Option String → Except Unit Bool :=
  fun _ => Except.ok false

/-- A concrete evaluator the source's glue can realize: the body
`"return true"` returns `true`; other bodies here are bare expressions
returning `undefined`, hence `false`. -/
def evalRet : Option String → Except Unit Bool
  | some "return true" => .ok true
  | _ => .ok false

/-- A concrete render context over the given data record and script
evaluator, with no named layouts and the identity linkifier. -/
def mkCtx (m : Monster) (ev : Option String → Except Unit Bool) : Ctx where
  monster := m
  evalCondition := ev
  getLayout := fun _ => none
  linkify := fun s => s
  R := R0

/-- A leaf item of the given type with every optional field absent. -/
def simpleItem (t : ItemType) : Item :=
  .mk t none none none [] none none false none

/-- An `ifelse` item whose first branch's condition script throws and
whose second (last) branch has an empty condition. -/
def ifelseBoomItem : Item :=
  .mk .ifelse none none none [(some "boom", []), (some "", [])] none none
    false none

/-- A conditioned `traits` item reading the `"traits"` field, with
`hasRule` set. -/
def traitsItemW : Item :=
  .mk .traits none (some ["traits"]) none [] none none true none

/-- A conditioned `property` item reading the `"hp"` field. -/
def propItemW : Item :=
  .mk .property (some true) (some ["hp"]) none [] none none false none

/-- The spec's qualifying-value predicate (§4.1): a non-empty list, a
non-empty string, or any number (including zero). -/
def qualifiesSpec (v : Value) : Prop :=
  (∃ l, v = Value.vlist l ∧ l ≠ []) ∨ (∃ s, v = Value.str s ∧ s ≠ "") ∨
    (∃ q, v = Value.num q)

/-- The `traits` guard's complement: the referenced field resolved to a
non-empty list (source line 437 tests `Array.isArray` and length). -/
def nonemptyListValue (v : Option Value) : Prop :=
  ∃ b0 brest, v = some (Value.vlist (b0 :: brest))

/-- Some trait-entry render throws: either the first entry's render
(source lines 478-491) or the loop over the remaining entries (source
lines 492-512). -/
def traitRenderFails (render : Value → Except Unit (List Elem))
    (b0 : Value) (brest : List Value) : Prop :=
  render b0 = Except.error () ∨ (traitPropsLoop render brest).2 = false

/-- A concrete data record with a numeric `hp` field. -/
def mW : Monster := [("hp", Value.num 10)]

/-- An unconditioned `text` leaf item. -/
def textItemW : Item := simpleItem .text

theorem propQualifies_iff (m : Monster) (p : String) :
    propQualifies m p = true ↔
      ∃ v, lookupField m p = some v ∧ qualifiesSpec v := by
  unfold propQualifies
  cases hv : lookupField m p with
  | none => simp [qualifiesSpec]
  | some v =>
    cases v <;> simp [qualifiesSpec, Bool.eq_false_iff, Ne,
      String.isEmpty_iff]

theorem addSpell_ne_nil (nm : String) (acc : List SpellBlock) (sp : Spell) :
    addSpell nm acc sp ≠ [] := by
  unfold addSpell
  cases h : acc.getLast? <;> simp

theorem spellStep_ne_nil (lk : String → String) (nm : String)
    (acc : List SpellBlock) (v : Value) (h : acc ≠ []) :
    spellStep lk nm acc v ≠ [] := by
  unfold spellStep
  cases v <;> simp only [objFields] <;>
    first
      | (split <;> simp [addSpell_ne_nil, h])
      | simp [addSpell_ne_nil, h]

theorem addSpell_head_header (nm : String) (a : SpellBlock)
    (as : List SpellBlock) (sp : Spell) :
    (addSpell nm (a :: as) sp).head?.map SpellBlock.header = some a.header := by
  unfold addSpell
  cases as with
  | nil => simp
  | cons b bs =>
    cases h : (a :: b :: bs).getLast? with
    | none => simp at h
    | some lastB => simp [List.dropLast]

theorem spellStep_head_header (lk : String → String) (nm : String)
    (a : SpellBlock) (as : List SpellBlock) (v : Value) :
    (spellStep lk nm (a :: as) v).head?.map SpellBlock.header =
      some a.header := by
  unfold spellStep
  cases v <;> simp only [objFields] <;>
    first
      | (split <;> simp [addSpell_head_header])
      | simp [addSpell_head_header]

theorem foldl_spellStep_head (lk : String → String) (nm : String) :
    ∀ (l : List Value) (a : SpellBlock) (as : List SpellBlock),
      ((l.foldl (spellStep lk nm) (a :: as)).head?).map SpellBlock.header =
        some a.header := by
  intro l
  induction l with
  | nil => intro a as; simp
  | cons v rest ih =>
    intro a as
    have hne := spellStep_ne_nil lk nm (a :: as) v (by simp)
    obtain ⟨a', as', heq⟩ := List.exists_cons_of_ne_nil hne
    have hh := spellStep_head_header lk nm a as v
    rw [heq] at hh
    simp only [List.head?_cons, Option.map_some] at hh
    rw [List.foldl_cons, heq, ih a' as']
    simpa using hh

theorem runAux_fst_error {α : Type} (eval : Option String → Except Unit Bool)
    (total i : Nat) (c : Option String) (ns : α)
    (rest : List (Option String × α)) (h : eval c = Except.error ()) :
    (runConditionsAux eval total ((c, ns) :: rest) i).1 =
      (runConditionsAux eval total rest (i + 1)).1 := by
  simp [runConditionsAux, h]

theorem runAux_first_true {α : Type} (eval : Option String → Except Unit Bool)
    (total : Nat) :
    ∀ (conds : List (Option String × α)) (i j : Nat) (c : Option String)
      (ns : α),
      total = i + conds.length →
      conds.get? j = some (c, ns) → eval c = Except.ok true →
      (∀ j' c' ns', j' < j → conds.get? j' = some (c', ns') →
        eval c' ≠ Except.ok true) →
      (runConditionsAux eval total conds i).1 = some ns := by
  intro conds
  induction conds with
  | nil => intro i j c ns _ hget; simp at hget
  | cons hd rest ih =>
    intro i j c ns htot hget heval hprev
    obtain ⟨c0, ns0⟩ := hd
    cases j with
    | zero =>
      simp only [List.get?_cons_zero, Option.some_inj] at hget
      obtain ⟨rfl, rfl⟩ := Prod.mk.injEq .. ▸ hget
      simp [runConditionsAux, heval]
    | succ j' =>
      have h0 : eval c0 ≠ Except.ok true :=
        hprev 0 c0 ns0 (Nat.succ_pos _) rfl
      have hget' : rest.get? j' = some (c, ns) := by simpa using hget
      have hlen : j' < rest.length := by
        rcases List.get?_eq_some.mp hget' with ⟨hlt, _⟩
        exact hlt
      have hprev' : ∀ j'' c'' ns'', j'' < j' → rest.get? j'' = some (c'', ns'') →
          eval c'' ≠ Except.ok true := by
        intro j'' c'' ns'' hlt hg
        exact hprev (j'' + 1) c'' ns'' (Nat.succ_lt_succ hlt) (by simpa using hg)
      have htot' : total = (i + 1) + rest.length := by
        simp only [List.length_cons] at htot; omega
      cases he : eval c0 with
      | error e =>
        cases e
        rw [runAux_fst_error eval total i c0 ns0 rest he]
        exact ih (i + 1) j' c ns htot' hget' heval hprev'
      | ok b =>
        have hb : b = false := by
          cases b
          · rfl
          · exact absurd he h0
        subst hb
        have hne : ¬(i = total - 1) := by
          simp only [List.length_cons] at htot; omega
        rw [show (runConditionsAux eval total ((c0, ns0) :: rest) i).1 =
            (runConditionsAux eval total rest (i + 1)).1 by
          simp [runConditionsAux, he, hne]]
        exact ih (i + 1) j' c ns htot' hget' heval hprev'

theorem runAux_default {α : Type} (eval : Option String → Except Unit Bool)
    (total : Nat) :
    ∀ (conds : List (Option String × α)) (i : Nat) (c : Option String)
      (ns : α),
      total = i + conds.length →
      (∀ p ∈ conds, eval p.1 ≠ Except.ok true) →
      conds.getLast? = some (c, ns) →
      eval c ≠ Except.error () →
      (runConditionsAux eval total conds i).1 =
        if condLen c = 0 then some ns else none := by
  intro conds
  induction conds with
  | nil => intro i c ns _ _ hlast; simp at hlast
  | cons hd rest ih =>
    intro i c ns htot hmem hlast herr
    obtain ⟨c0, ns0⟩ := hd
    cases rest with
    | nil =>
      simp only [List.getLast?_singleton, Option.some_inj] at hlast
      have h1 : c = c0 := congrArg Prod.fst hlast.symm
      have h2 : ns = ns0 := congrArg Prod.snd hlast.symm
      subst h1
      subst h2
      have h0 : eval c ≠ Except.ok true := hmem (c, ns) (by simp)
      cases he : eval c with
      | error e => cases e; exact absurd he herr
      | ok b =>
        have hb : b = false := by
          cases b
          · rfl
          · exact absurd he h0
        subst hb
        have hi : i = total - 1 := by
          simp only [List.length_cons, List.length_nil] at htot; omega
        by_cases hc : condLen c = 0
        · simp [runConditionsAux, he, hi, hc]
        · simp [runConditionsAux, he, hc]
    | cons r1 rest' =>
      have hlast' : (r1 :: rest').getLast? = some (c, ns) := by
        rw [← List.getLast?_cons_cons (a := (c0, ns0))]; exact hlast
      have h0 : eval c0 ≠ Except.ok true := hmem (c0, ns0) (by simp)
      have hmem' : ∀ p ∈ r1 :: rest', eval p.1 ≠ Except.ok true := by
        intro p hp; exact hmem p (by simp [hp])
      have htot' : total = (i + 1) + (r1 :: rest').length := by
        simp only [List.length_cons] at htot ⊢; omega
      cases he : eval c0 with
      | error e =>
        cases e
        rw [runAux_fst_error eval total i c0 ns0 _ he]
        exact ih (i + 1) c ns htot' hmem' hlast' herr
      | ok b =>
        have hb : b = false := by
          cases b
          · rfl
          · exact absurd he h0
        subst hb
        have hne : ¬(i = total - 1) := by
          simp only [List.length_cons] at htot; omega
        rw [show (runConditionsAux eval total ((c0, ns0) :: r1 :: rest') i).1 =
            (runConditionsAux eval total (r1 :: rest') (i + 1)).1 by
          simp [runConditionsAux, he, hne]]
        exact ih (i + 1) c ns htot' hmem' hlast' herr

theorem runAux_sel_mem {α : Type} (eval : Option String → Except Unit Bool)
    (total : Nat) :
    ∀ (conds : List (Option String × α)) (i : Nat) (ns : α),
      (runConditionsAux eval total conds i).1 = some ns →
      ∃ p ∈ conds, p.2 = ns ∧ ∃ b, eval p.1 = Except.ok b := by
  intro conds
  induction conds with
  | nil => intro i ns h; simp [runConditionsAux] at h
  | cons hd rest ih =>
    intro i ns h
    obtain ⟨c0, ns0⟩ := hd
    cases he : eval c0 with
    | error e =>
      cases e
      rw [runAux_fst_error eval total i c0 ns0 rest he] at h
      obtain ⟨p, hp, hpn, hb⟩ := ih (i + 1) ns h
      exact ⟨p, by simp [hp], hpn, hb⟩
    | ok b =>
      by_cases hsel : b = true ∨ (i = total - 1 ∧ condLen c0 = 0)
      · have : (runConditionsAux eval total ((c0, ns0) :: rest) i).1 =
            some ns0 := by
          simp [runConditionsAux, he, hsel]
        rw [this] at h
        obtain rfl : ns0 = ns := by simpa using h
        exact ⟨(c0, ns0), by simp, rfl, b, he⟩
      · have : (runConditionsAux eval total ((c0, ns0) :: rest) i).1 =
            (runConditionsAux eval total rest (i + 1)).1 := by
          simp [runConditionsAux, he, hsel]
        rw [this] at h
        obtain ⟨p, hp, hpn, hb⟩ := ih (i + 1) ns h
        exact ⟨p, by simp [hp], hpn, hb⟩

theorem finishItem_ret_nonempty (ctx : Ctx) (hc hr : Bool) (co : CaseOut) :
    ∀ e ∈ (finishItem ctx hc hr co).ret, e.hasChildNodes = true := by
  intro e he
  cases co with
  | early created => simp [finishItem] at he
  | normal a b c d =>
    simp only [finishItem] at he
    exact (List.mem_filter.mp he).2

/-- C9 part 1, one step. -/
theorem expandItem_ret_nonempty (ctx : Ctx) (fuel : Nat) (hc : Bool)
    (item : Item) : ∀ e ∈ (expandItem ctx fuel hc item).ret,
      e.hasChildNodes = true := by
  intro e he
  cases fuel with
  | zero => simp [expandItem] at he
  | succ fuel =>
    simp only [expandItem, expandStep] at he
    by_cases hch : checkConditioned ctx.monster (fuel + 1) item = true
    · rw [if_pos hch] at he
      exact finishItem_ret_nonempty ctx hc item.hasRule _ e he
    · rw [if_neg hch] at he
      simp at he

theorem expandItem_guard (ctx : Ctx) (fuel : Nat) (hc : Bool) (item : Item)
    (h : checkConditioned ctx.monster fuel item = false) :
    expandItem ctx fuel hc item = ⟨[], [], 0⟩ := by
  cases fuel with
  | zero => simp [expandItem]
  | succ fuel =>
    simp only [expandItem, expandStep]
    rw [if_neg (by simp [h])]

theorem expandItem_traits_guard (ctx : Ctx) (fuel : Nat) (hc : Bool)
    (item : Item) (p : String) (prest : List String)
    (hty : item.ty = .traits) (hprops : item.properties = some (p :: prest))
    (hbad : ¬ nonemptyListValue (lookupField ctx.monster p)) :
    (expandItem ctx fuel hc item).ret = [] := by
  cases fuel with
  | zero => simp [expandItem]
  | succ fuel =>
    simp only [expandItem, expandStep]
    by_cases hch : checkConditioned ctx.monster (fuel + 1) item = true
    · rw [if_pos hch]
      have hfp : firstPropValue ctx.monster item.properties =
          lookupField ctx.monster p := by simp [firstPropValue, hprops]
      cases hv : lookupField ctx.monster p with
      | none => simp [itemCase, hty, hfp, hv, finishItem]
      | some v =>
        cases v with
        | vlist l =>
          cases l with
          | nil => simp [itemCase, hty, hfp, hv, finishItem]
          | cons b0 brest => exact absurd ⟨b0, brest, hv⟩ hbad
        | str s => simp [itemCase, hty, hfp, hv, finishItem]
        | num q => simp [itemCase, hty, hfp, hv, finishItem]
        | boolV b => simp [itemCase, hty, hfp, hv, finishItem]
        | obj fs => simp [itemCase, hty, hfp, hv, finishItem]
    · rw [if_neg hch]

theorem expandItem_traits_catch (ctx : Ctx) (fuel : Nat) (hc : Bool)
    (item : Item) (p : String) (prest : List String) (b0 : Value)
    (brest : List Value)
    (hty : item.ty = .traits) (hprops : item.properties = some (p :: prest))
    (hv : lookupField ctx.monster p = some (Value.vlist (b0 :: brest)))
    (hfail : traitRenderFails ctx.R.traitEntry b0 brest) :
    (expandItem ctx fuel hc item).ret = [] := by
  cases fuel with
  | zero => simp [expandItem]
  | succ fuel =>
    simp only [expandItem, expandStep]
    by_cases hch : checkConditioned ctx.monster (fuel + 1) item = true
    · rw [if_pos hch]
      have hfp : firstPropValue ctx.monster item.properties =
          lookupField ctx.monster p := by simp [firstPropValue, hprops]
      cases he : ctx.R.traitEntry b0 with
      | error e =>
        cases e
        simp [itemCase, hty, hfp, hv, he, finishItem]
      | ok entry0 =>
        cases hfail with
        | inl herr => rw [herr] at he; exact absurd he (by simp)
        | inr hloop =>
          simp [itemCase, hty, hfp, hv, he, hloop, finishItem]
    · rw [if_neg hch]

theorem expandStatblock_skip (ctx : Ctx) (fuel : Nat) :
    ∀ (l1 : List Item) (item : Item) (l2 : List Item),
      (expandItem ctx fuel false item).ret = [] →
      expandStatblock ctx fuel (l1 ++ item :: l2) =
        expandStatblock ctx fuel (l1 ++ l2) := by
  intro l1 item l2 h
  induction l1 with
  | nil => simp [expandStatblock, h]
  | cons a l1 ih => simp [expandStatblock, ih]

/-- C1 counterexample: under the evaluation the source's glue realizes
for bare expression scripts (`evalBareExpr`: a body with no `return`
yields `undefined`, and `?? false` makes it `false`), the condition
list `["true", "false", ""]` selects the third branch — the
empty-conditioned default — not the first branch the claim states. -/
theorem C1_ifelse_branch_selection_counterexample :
    (runConditions evalBareExpr
      [(some "true", (1 : Nat)), (some "false", 2), (some "", 3)]).1 =
      some 3 ∧
    (runConditions evalBareExpr
      [(some "true", (1 : Nat)), (some "false", 2), (some "", 3)]).1 ≠
      some 1 :=
  ⟨rfl, by decide⟩

/-- C1 (amended): branch selection expands the children of the first
branch whose condition script evaluates to true; if no condition
evaluates to true, the final branch is selected exactly when its
condition is empty or absent (given that the evaluator does not throw
on that final condition — the source's `Function` constructor cannot
throw on an empty body).  Because the source passes the condition text
as the function body, a bare script such as `"true"` or `"false"`
contains no `return` and evaluates to `false`, so both condition lists
`["false", "false", ""]` and `["true", "false", ""]` expand the third
branch's children. -/
theorem C1_ifelse_branch_selection_amended :
    (∀ (α : Type) (eval : Option String → Except Unit Bool)
       (conds : List (Option String × α)) (j : Nat) (c : Option String)
       (ns : α),
       conds.get? j = some (c, ns) → eval c = Except.ok true →
       (∀ j' c' ns', j' < j → conds.get? j' = some (c', ns') →
         eval c' ≠ Except.ok true) →
       (runConditions eval conds).1 = some ns)
  ∧ (∀ (α : Type) (eval : Option String → Except Unit Bool)
       (conds : List (Option String × α)) (c : Option String) (ns : α),
       (∀ p ∈ conds, eval p.1 ≠ Except.ok true) →
       conds.getLast? = some (c, ns) →
       eval c ≠ Except.error () →
       (runConditions eval conds).1 =
         if condLen c = 0 then some ns else none)
  ∧ (runConditions evalBareExpr
       [(some "false", (1 : Nat)), (some "false", 2), (some "", 3)]).1 =
       some 3
  ∧ (runConditions evalBareExpr
       [(some "true", (1 : Nat)), (some "false", 2), (some "", 3)]).1 =
       some 3 := by
  refine ⟨?_, ?_, rfl, rfl⟩
  · intro α eval conds j c ns hget heval hprev
    exact runAux_first_true eval conds.length conds 0 j c ns (by omega)
      hget heval hprev
  · intro α eval conds c ns hmem hlast herr
    exact runAux_default eval conds.length conds 0 c ns (by omega) hmem
      hlast herr

/-- Witness for C1 (amended): under the realizable evaluator `evalRet`
a first branch whose script `"return true"` evaluates to true is
selected. -/
theorem C1_ifelse_branch_selection_amended_witness :
    (runConditions evalRet [(some "return true", (5 : Nat))]).1 =
      some 5 :=
  C1_ifelse_branch_selection_amended.1 Nat evalRet
    [(some "return true", 5)] 0 (some "return true") 5 rfl rfl
    (fun j' _ _ hlt _ => absurd hlt (Nat.not_lt_zero j'))

/-- C2 counterexample: with a configured `columnHeight` of `500` (which
`maxHeight` accepts as the configured max height), total height `10000`
and one column, the computed split height is `600`, which exceeds the
configured max height — refuting the claim that the split height never
exceeds the configured max height when one is set. -/
theorem C2_split_clamp_counterexample :
    computeSplit false none 3 1 10000 (maxHeight (some 500)) = 600 ∧
      ¬ computeSplit false none 3 1 10000 (maxHeight (some 500)) ≤ 500 := by
  constructor <;>
    norm_num [computeSplit, maxHeight, minOpt, min_def, max_def]

/-- C2 (amended): when neither `forceColumns` nor a positive explicit
record column count is present, the split height equals
`max(600, min(totalHeight / columns, maxHeight))`; it never exceeds the
configured max height when that max is at least `600`, and never falls
below `600` when no max height is configured. -/
theorem C2_split_clamp_amended :
    ∀ (mc : Option ℚ) (maxC columns t : ℚ) (mh : Option ℚ),
      (mc = none ∨ ∃ k, mc = some k ∧ ¬ 0 < k) →
      1 ≤ columns →
      (computeSplit false mc maxC columns t mh =
        max 600 (minOpt (t / columns) mh))
      ∧ (∀ M, mh = some M → 600 ≤ M →
          computeSplit false mc maxC columns t mh ≤ M)
      ∧ (mh = none → 600 ≤ computeSplit false mc maxC columns t mh) := by
  intro mc maxC columns t mh hmc _
  have heq : computeSplit false mc maxC columns t mh =
      max 600 (minOpt (t / columns) mh) := by
    rcases hmc with rfl | ⟨k, rfl, hk⟩
    · simp [computeSplit]
    · simp [computeSplit, hk]
  refine ⟨heq, ?_, ?_⟩
  · intro M hM h600
    rw [heq, hM]
    exact max_le h600 (min_le_right _ _)
  · intro _
    rw [heq]
    exact le_max_left _ _

/-- Witness for C2 (amended) at `columns = 1`, total height `1000`, no
explicit record column count and no configured max height. -/
theorem C2_split_clamp_amended_witness :
    (computeSplit false none 3 1 1000 none =
      max 600 (minOpt ((1000 : ℚ) / 1) none))
    ∧ (∀ M, (none : Option ℚ) = some M → 600 ≤ M →
        computeSplit false none 3 1 1000 none ≤ M)
    ∧ ((none : Option ℚ) = none →
        600 ≤ computeSplit false none 3 1 1000 none) :=
  C2_split_clamp_amended none 3 1 1000 none (Or.inl rfl) (le_refl 1)

/-- C3 counterexample: `"Cantrips."` is header-shaped (it contains no
`':'`) but ends in a non-alphanumeric character, so `ensureColon` leaves
it unchanged and the first group's header is `"Cantrips."`, not the
colon-appended `"Cantrips.:"` the claim predicts for a string that is
not colon-terminated. -/
theorem C3_first_header_counterexample :
    (groupSpells (fun s => s) "M" [Value.str "Cantrips."]).map
      SpellBlock.header = ["Cantrips."] ∧
    (groupSpells (fun s => s) "M" [Value.str "Cantrips."]).map
      SpellBlock.header ≠ ["Cantrips." ++ ":"] := by
  constructor
  · rfl
  · decide

/-- C3 (amended): for every raw spell list whose first element is a
header-shaped string, the first group's header equals `ensureColon` of
that string — the string with a colon appended when its final character
is alphanumeric (or the string is empty), and unchanged otherwise. -/
theorem C3_first_header_amended :
    ∀ (lk : String → String) (nm s : String) (rest : List Value),
      isSpellHeader s = true →
      ((groupSpells lk nm (Value.str s :: rest)).head?).map
        SpellBlock.header = some (ensureColon s) := by
  intro lk nm s rest hs
  unfold groupSpells
  rw [List.foldl_cons]
  have hstep : spellStep lk nm [] (Value.str s) = [⟨ensureColon s, []⟩] := by
    simp [spellStep, hs]
  rw [hstep]
  exact foldl_spellStep_head lk nm rest _ []

/-- Witness for C3 (amended) on the colon-terminated header
`"Cantrips:"`. -/
theorem C3_first_header_amended_witness :
    isSpellHeader "Cantrips:" = true ∧
    ((groupSpells (fun s => s) "M" [Value.str "Cantrips:"]).head?).map
      SpellBlock.header = some (ensureColon "Cantrips:") :=
  ⟨rfl, C3_first_header_amended (fun s => s) "M" "Cantrips:" [] rfl⟩

/-- C4: when an `ifelse` branch's condition script throws, the `catch`
block's `continue` skips the `removeChild` call, so the sandbox iframe
of that evaluation stays attached to `document.body`: for the item
`ifelseBoomItem` (first condition throws, second is the empty default)
one frame is left attached after the item is processed — the claim's
per-evaluation teardown fails on the code. -/
theorem C4_iframe_leak_on_throw :
    (runConditions evalBoom [(some "boom", (0 : Nat)), (some "", 1)]).2 = 1
  ∧ (expandItem (mkCtx [] evalBoom) 2 false ifelseBoomItem).frames = 1 :=
  ⟨rfl, rfl⟩

/-- C5: `isVisible` (`checkConditioned`) returns true whenever the
`conditioned` flag is unset or false; for a conditioned non-composite
item (no `nested` field) whose type is none of
`ifelse`/`javascript`/`layout`, it returns true when the item declares
no properties, and otherwise returns true iff at least one named
property resolves in the data record to a non-empty list, a non-empty
string, or any number (including zero). -/
theorem C5_isVisible :
    (∀ (m : Monster) (fuel : Nat) (item : Item),
       item.conditioned = none ∨ item.conditioned = some false →
       checkConditioned m (fuel + 1) item = true)
  ∧ (∀ (m : Monster) (fuel : Nat) (item : Item),
       item.conditioned = some true → item.nested = none →
       item.ty ≠ .ifelse → item.ty ≠ .javascript → item.ty ≠ .layout →
       ((item.properties = none ∨ item.properties = some [] →
           checkConditioned m (fuel + 1) item = true)
        ∧ ∀ props, item.properties = some props → props ≠ [] →
           (checkConditioned m (fuel + 1) item = true ↔
             ∃ p ∈ props, ∃ v, lookupField m p = some v ∧
               qualifiesSpec v))) := by
  constructor
  · intro m fuel item h
    simp only [checkConditioned]
    rw [if_pos h]
  · intro m fuel item hcond hnest hty1 hty2 hty3
    have hone : checkConditioned m (fuel + 1) item =
        match item.properties with
        | none => true
        | some props =>
          if props.isEmpty then true else props.any (propQualifies m) := by
      simp only [checkConditioned]
      rw [if_neg (by simp [hcond]), hnest]
      rw [if_neg (by simp [hty1, hty2, hty3])]
    constructor
    · intro hp
      rcases hp with hp | hp <;> simp [hone, hp]
    · intro props hp hne
      rw [hone, hp]
      show (if props.isEmpty = true then true
        else props.any (propQualifies m)) = true ↔ _
      rw [if_neg (by simp [List.isEmpty_iff, hne])]
      rw [List.any_eq_true]
      constructor
      · rintro ⟨p, hmem, hq⟩
        obtain ⟨v, hv, hqs⟩ := (propQualifies_iff m p).mp hq
        exact ⟨p, hmem, v, hv, hqs⟩
      · rintro ⟨p, hmem, v, hv, hqs⟩
        exact ⟨p, hmem, (propQualifies_iff m p).mpr ⟨v, hv, hqs⟩⟩

/-- Witness for C5: the conditioned `property` item reading `hp` is
visible on `mW` exactly because `hp` resolves to a number. -/
theorem C5_isVisible_witness :
    checkConditioned mW 1 propItemW = true ↔
      ∃ p ∈ ["hp"], ∃ v, lookupField mW p = some v ∧ qualifiesSpec v :=
  ((C5_isVisible.2 mW 0 propItemW rfl rfl (by decide) (by decide)
    (by decide)).2 ["hp"] rfl (by decide))

/-- C6: when an `ifelse` branch's condition script throws, the error is
caught and the loop continues to the next branch (the selection outcome
of the remaining branches is unchanged), the throwing branch is never
the selected one, and — the condition loop being a total function — the
error never propagates out of the expansion. -/
theorem C6_condition_error_skipped :
    (∀ (α : Type) (eval : Option String → Except Unit Bool) (total i : Nat)
       (c : Option String) (ns : α) (rest : List (Option String × α)),
       eval c = Except.error () →
       (runConditionsAux eval total ((c, ns) :: rest) i).1 =
         (runConditionsAux eval total rest (i + 1)).1)
  ∧ (∀ (α : Type) (eval : Option String → Except Unit Bool)
       (conds : List (Option String × α)) (ns : α),
       (runConditions eval conds).1 = some ns →
       ∃ p ∈ conds, p.2 = ns ∧ ∃ b, eval p.1 = Except.ok b) := by
  constructor
  · intro α eval total i c ns rest h
    exact runAux_fst_error eval total i c ns rest h
  · intro α eval conds ns h
    exact runAux_sel_mem eval conds.length conds 0 ns h

/-- Witness for C6: skipping the throwing first branch of a concrete
two-branch list. -/
theorem C6_condition_error_skipped_witness :
    (runConditionsAux evalBoom 2 [(some "boom", (7 : Nat)), (some "", 8)]
      0).1 = (runConditionsAux evalBoom 2 [(some "", (8 : Nat))] 1).1 :=
  C6_condition_error_skipped.1 Nat evalBoom 2 0 (some "boom") 7
    [(some "", 8)] rfl

/-- C7: a `traits` item whose referenced data-record field is absent,
not a list, or an empty list expands to zero blocks (the early return
also bypasses the `hasRule` separator); a throw while rendering the
trait entries is caught and the item likewise yields zero blocks; and an
item whose expansion is empty leaves the expansion of its sibling items
unchanged. -/
theorem C7_traits_guard_and_catch :
    (∀ (ctx : Ctx) (fuel : Nat) (hc : Bool) (item : Item) (p : String)
       (prest : List String),
       item.ty = .traits → item.properties = some (p :: prest) →
       ¬ nonemptyListValue (lookupField ctx.monster p) →
       (expandItem ctx fuel hc item).ret = [])
  ∧ (∀ (ctx : Ctx) (fuel : Nat) (hc : Bool) (item : Item) (p : String)
       (prest : List String) (b0 : Value) (brest : List Value),
       item.ty = .traits → item.properties = some (p :: prest) →
       lookupField ctx.monster p = some (Value.vlist (b0 :: brest)) →
       traitRenderFails ctx.R.traitEntry b0 brest →
       (expandItem ctx fuel hc item).ret = [])
  ∧ (∀ (ctx : Ctx) (fuel : Nat) (l1 l2 : List Item) (item : Item),
       (expandItem ctx fuel false item).ret = [] →
       expandStatblock ctx fuel (l1 ++ item :: l2) =
         expandStatblock ctx fuel (l1 ++ l2)) := by
  refine ⟨?_, ?_, ?_⟩
  · intro ctx fuel hc item p prest hty hprops hbad
    exact expandItem_traits_guard ctx fuel hc item p prest hty hprops hbad
  · intro ctx fuel hc item p prest b0 brest hty hprops hv hfail
    exact expandItem_traits_catch ctx fuel hc item p prest b0 brest hty
      hprops hv hfail
  · intro ctx fuel l1 l2 item h
    exact expandStatblock_skip ctx fuel l1 item l2 h

/-- Witness for C7: the `traits` item reading the absent `traits` field
of `mW` yields zero blocks even though it declares `hasRule`. -/
theorem C7_traits_guard_and_catch_witness :
    (expandItem (mkCtx mW evalLit) 1 false traitsItemW).ret = [] :=
  C7_traits_guard_and_catch.1 (mkCtx mW evalLit) 1 false traitsItemW
    "traits" [] rfl rfl
    (fun h => by rcases h with ⟨b0, brest, h⟩; exact Option.noConfusion h)

/-- C8: when the data record's `forceColumns` flag is set, the computed
split height equals the measured total height divided by `maxColumns`,
for every total height and configuration; in particular with
`maxColumns = 3` and total height `900` the split height is `300`. -/
theorem C8_forceColumns_split :
    (∀ (mc : Option ℚ) (maxC columns t : ℚ) (mh : Option ℚ),
       computeSplit true mc maxC columns t mh = t / maxC)
  ∧ computeSplit true none 3 2 900 none = 300 := by
  constructor
  · intro mc maxC columns t mh
    simp [computeSplit]
  · norm_num [computeSplit]

/-- C9: every element of the block list returned by expansion has child
nodes (the source filters by `hasChildNodes`, and every early return
yields `[]`); in particular an item that fails the visibility check
yields the empty list and attaches nothing to the caller's container. -/
theorem C9_expansion_nonempty :
    (∀ (ctx : Ctx) (fuel : Nat) (hc : Bool) (item : Item),
       ∀ e ∈ (expandItem ctx fuel hc item).ret, e.hasChildNodes = true)
  ∧ (∀ (ctx : Ctx) (fuel : Nat) (hc : Bool) (item : Item),
       checkConditioned ctx.monster fuel item = false →
       expandItem ctx fuel hc item = ⟨[], [], 0⟩) :=
  ⟨expandItem_ret_nonempty, expandItem_guard⟩

/-- Witness for C9: the single block produced for a `text` item is
non-empty. -/
theorem C9_expansion_nonempty_witness :
    Elem.mk [Elem.mk []] ∈ (expandItem (mkCtx [] evalLit) 1 false
      textItemW).ret ∧
    (Elem.mk [Elem.mk []]).hasChildNodes = true :=
  ⟨List.mem_singleton_self _,
   C9_expansion_nonempty.1 (mkCtx [] evalLit) 1 false textItemW _
     (List.mem_singleton_self _)⟩

/-- C10: the empty string is classified as a spell header (it does not
end with `':'` but contains no `':'`), so it starts a new group whose
header is the single character `":"` — it is neither skipped nor
treated as a spell entry. -/
theorem C10_empty_string_header :
    isSpellHeader "" = true
  ∧ ensureColon "" = ":"
  ∧ (∀ (lk : String → String) (nm : String) (acc : List SpellBlock),
       spellStep lk nm acc (Value.str "") = acc ++ [⟨":", []⟩])
  ∧ groupSpells (fun s => s) "M" [Value.str ""] = [⟨":", []⟩] := by
  refine ⟨rfl, rfl, ?_, rfl⟩
  intro lk nm acc
  have h1 : isSpellHeader "" = true := rfl
  have h2 : ensureColon "" = ":" := rfl
  simp [spellStep, h1, h2]
